import Mathlib

/-
Shallow embedding of `src/streamlit_app.py` (sheets-excel-image-link-correction).

The core of the program is `process_excel_with_images`, which walks every
sheet and cell of a workbook, matches the regular expression
`=@IMAGE\s*\(\s*["\']([^"\']+)["\']\s*\)` (case-insensitively) against
string-valued cells, and either rewrites the formula text
(`re.sub(pattern, r'=IMAGE("\1")', ...)`) or downloads and embeds the image,
falling back to the text rewrite on any failure.  Every matched cell appends
one change record; temporary image files are collected in `temp_files` and
deleted in a `finally` block after the workbook is serialized.

The regex has a fixed shape with no backtracking ambiguity (each `\s*` is
followed by a non-space literal, and the quoted body `[^"\']+` is bounded by
the first following quote character), so it is embedded as a deterministic
scanner over the character list.
-/

/-- Double-quote character, written numerically. -/
def dqChar : Char := Char.ofNat 34

/-- Single-quote character, written numerically. -/
def sqChar : Char := Char.ofNat 39

/-- Character class `["\']` of the source regex. -/
def isQuote (c : Char) : Bool := c == dqChar || c == sqChar

/-- Character class `[^"\']` of the source regex. -/
def notQuote (c : Char) : Bool := !(isQuote c)

/-- Python `\s` on the ASCII range: space, tab, newline, carriage return,
vertical tab, form feed. -/
def isPySpace (c : Char) : Bool :=
  c == ' ' || c == '\t' || c == '\n' || c == '\r' || c == Char.ofNat 11 || c == Char.ofNat 12

/-- Case-insensitive character comparison, modelling `re.IGNORECASE`. -/
def lowEq (a b : Char) : Bool := a.toLower == b.toLower

/-- The literal token `@IMAGE` of the source regex. -/
def imageTok : List Char := ['@', 'I', 'M', 'A', 'G', 'E']

/-- Strip a literal token (case-insensitively) from the front of the input,
returning the rest on success. -/
def stripTokenCI : List Char → List Char → Option (List Char)
  | [], cs => some cs
  | _ :: _, [] => none
  | t :: ts, c :: cs => if lowEq t c then stripTokenCI ts cs else none

/-- `\s*`: greedily drop whitespace. -/
def dropSpaces (cs : List Char) : List Char := cs.dropWhile isPySpace

/-- Match the part of the regex after the leading `=`:
`@IMAGE\s*\(\s*["\']([^"\']+)["\']\s*\)`.  Returns the captured group
(the characters between the quotes) and the input remaining after the
closing parenthesis. -/
def parseAfterEq (cs : List Char) : Option (List Char × List Char) :=
  match stripTokenCI imageTok cs with
  | none => none
  | some r1 =>
    match dropSpaces r1 with
    | '(' :: r3 =>
      match dropSpaces r3 with
      | q :: r5 =>
        if isQuote q then
          match r5.takeWhile notQuote, r5.dropWhile notQuote with
          | body, _ :: r7 =>
            if body.isEmpty then none
            else
              match dropSpaces r7 with
              | ')' :: r9 => some (body, r9)
              | _ => none
          | _, [] => none
        else none
      | [] => none
    | _ => none

/-- `re.search(pattern, text, flags=re.IGNORECASE)`: find the leftmost match
and return its captured group (the URL). -/
def searchIMAGE : List Char → Option (List Char)
  | [] => none
  | c :: rest =>
    if c = '=' then
      match parseAfterEq rest with
      | some (url, _) => some url
      | none => searchIMAGE rest
    else searchIMAGE rest

/-- The replacement text `=IMAGE("\1")` for a captured group `url`. -/
def normalizedChars (url : List Char) : List Char :=
  '=' :: 'I' :: 'M' :: 'A' :: 'G' :: 'E' :: '(' :: dqChar :: (url ++ [dqChar, ')'])

/-- `re.sub(pattern, r'=IMAGE("\1")', text, flags=re.IGNORECASE)`: replace
every non-overlapping occurrence, scanning left to right.  The fuel argument
(always instantiated with the input length) makes the recursion structural;
each step consumes at least one input character. -/
def subAllFuel : Nat → List Char → List Char
  | 0, cs => cs
  | _ + 1, [] => []
  | fuel + 1, c :: rest =>
    if c = '=' then
      match parseAfterEq rest with
      | some (url, after) => normalizedChars url ++ subAllFuel fuel after
      | none => c :: subAllFuel fuel rest
    else c :: subAllFuel fuel rest

/-- Replace every occurrence of the pattern in a character list. -/
def subAll (cs : List Char) : List Char := subAllFuel cs.length cs

/-- String-level matcher: `match(cellText) -> Option url` of the spec,
implemented exactly as the source's `re.search` on the fixed pattern. -/
def findImageUrl (s : String) : Option String := (searchIMAGE s.data).map String.mk

/-- String-level rewrite: the source's
`re.sub(pattern, r'=IMAGE("\1")', value, flags=re.IGNORECASE)`. -/
def replaceImage (s : String) : String := String.mk (subAll s.data)

/-- Whether the text contains the token `@IMAGE` (case-insensitive) anywhere. -/
def hasTokenCI : List Char → Bool
  | [] => false
  | c :: rest => (stripTokenCI imageTok (c :: rest)).isSome || hasTokenCI rest

/-- A cell value: Python string values are `text`; any other non-None value
(numbers, dates, booleans) is `other`; an empty cell is `Option.none`. -/
inductive CellValue where
  | text (s : String)
  | other
  deriving DecidableEq

/-- The source's guard `if cell.value and isinstance(cell.value, str)`
(truthiness: the empty string is falsy) followed by the regex search:
a cell is matched when it holds a non-empty string whose text matches. -/
def cellMatches (v : Option CellValue) : Bool :=
  match v with
  | some (CellValue.text s) => (s != "") && (searchIMAGE s.data).isSome
  | _ => false

/-- openpyxl `cell.column_letter`: bijective base-26 column name (1 is A).
The fuel argument (instantiated with the column index) makes the recursion
structural. -/
def colLetterAux : Nat → Nat → List Char → List Char
  | 0, _, acc => acc
  | _ + 1, 0, acc => acc
  | fuel + 1, m + 1, acc => colLetterAux fuel (m / 26) (Char.ofNat (65 + m % 26) :: acc)

/-- Column letter of a 1-based column index. -/
def colLetter (c : Nat) : String := String.mk (colLetterAux c c [])

/-- The cell address string built by the source, `column_letter + row`. -/
def cellAddr (r c : Nat) : String := colLetter c ++ toString r

/-- One entry of the `changes` list built by the source. -/
structure ChangeRecord where
  sheet : String
  cellRef : String
  original : String
  action : String
  url : String
  status : String
  deriving DecidableEq

/-- An embedded image placement: the anchor string assigned to
`excel_img.anchor` plus the clamped pixel width and height. -/
structure Placement where
  anchor : String
  width : Nat
  height : Nat
  deriving DecidableEq

/-- Per-sheet state besides the cell grid: `row_dimensions` heights keyed by
1-based row index, `column_dimensions` widths keyed by 1-based column index
(standing for the column letter, which the index determines uniquely), and
the sheet's collection of embedded images. -/
structure SheetCtx where
  rowHeights : List (Nat × ℚ)
  colWidths : List (Nat × ℚ)
  placements : List Placement
  deriving DecidableEq

/-- Dimension lookup (openpyxl dimension objects default to `None`). -/
def getDim : List (Nat × ℚ) → Nat → Option ℚ
  | [], _ => none
  | (k, v) :: rest, k' => if k = k' then some v else getDim rest k'

/-- Dimension assignment. -/
def setDim : List (Nat × ℚ) → Nat → ℚ → List (Nat × ℚ)
  | [], k, x => [(k, x)]
  | (k0, v) :: rest, k, x => if k0 = k then (k, x) :: rest else (k0, v) :: setDim rest k x

/-- Python `x or default` on an optional number: `None` and `0` are falsy. -/
def orDefault (o : Option ℚ) (d : ℚ) : ℚ :=
  match o with
  | some v => if v = 0 then d else v
  | none => d

/-- Python `max` on two rationals. -/
def qmax (a b : ℚ) : ℚ := if a ≤ b then b else a

/-- A worksheet: its name, the cell grid in `iter_rows` order (1-based row
and column indices derived from position), and the dimension/image state. -/
structure Sheet where
  name : String
  rows : List (List (Option CellValue))
  ctx : SheetCtx
  deriving DecidableEq

/-- Environment outcome for one URL in EmbedImages mode: `download_image`
fails (network error or invalid payload, in which case no temp file survives
the call), or it succeeds producing a temp file and a natural pixel size,
after which the embedding step (`ExcelImage` construction / `add_image`)
either raises or succeeds. -/
inductive FetchOutcome where
  | fetchFail (msg : String)
  | embedFail (w h : Nat) (msg : String)
  | embedOk (w h : Nat)

/-- Conversion configuration: the `insert_images` mode flag, the
`max_image_size` cap, and the external network/embedding environment keyed
by URL. -/
structure Cfg where
  insertImages : Bool
  maxSize : Nat
  env : String → FetchOutcome

/-- Orchestrator-global state: the accumulated `changes` list, the
`temp_files` list scheduled for deletion in the `finally` block, the temp
files currently existing on disk, and a fresh-name counter for
`tempfile.NamedTemporaryFile`. -/
structure GState where
  changes : List ChangeRecord
  tempFiles : List Nat
  liveFiles : List Nat
  nextId : Nat
  deriving DecidableEq

/-- Initial orchestrator state (`changes = []`, `temp_files = []`). -/
def initG : GState := ⟨[], [], [], 0⟩

/-- Processing of one matched cell (the body of `if match:` in the source):
dispatch on mode and on the fetch/embed outcome for the extracted URL. -/
def processMatched (cfg : Cfg) (sname : String) (r c : Nat) (s : String) (url : String)
    (ctx : SheetCtx) (g : GState) : Option CellValue × SheetCtx × GState :=
  let addr := cellAddr r c
  if cfg.insertImages then
    match cfg.env url with
    | FetchOutcome.embedOk w h =>
      let fid := g.nextId
      let w' := min w cfg.maxSize
      let h' := min h cfg.maxSize
      let ctx' : SheetCtx :=
        { rowHeights := setDim ctx.rowHeights r
            (qmax (orDefault (getDim ctx.rowHeights r) 15) ((h' : ℚ) * (3 / 4))),
          colWidths := setDim ctx.colWidths c
            (qmax (orDefault (getDim ctx.colWidths c) 8) ((w' : ℚ) * (3 / 20))),
          placements := ctx.placements ++ [⟨addr, w', h'⟩] }
      (some (CellValue.text ""), ctx',
        { changes := g.changes ++ [⟨sname, addr, s, "Image inserted", url, "Success"⟩],
          tempFiles := g.tempFiles ++ [fid],
          liveFiles := g.liveFiles ++ [fid],
          nextId := fid + 1 })
    | FetchOutcome.embedFail _ _ msg =>
      let fid := g.nextId
      (some (CellValue.text (replaceImage s)), ctx,
        { changes := g.changes ++
            [⟨sname, addr, s, "Formula replaced (image insertion failed)", url, "Error: " ++ msg⟩],
          tempFiles := g.tempFiles ++ [fid],
          liveFiles := g.liveFiles ++ [fid],
          nextId := fid + 1 })
    | FetchOutcome.fetchFail msg =>
      (some (CellValue.text (replaceImage s)), ctx,
        { g with changes := g.changes ++
            [⟨sname, addr, s, "Formula replaced (download failed)", url, "Error: " ++ msg⟩] })
  else
    (some (CellValue.text (replaceImage s)), ctx,
      { g with changes := g.changes ++
          [⟨sname, addr, s, "Formula replaced", url, "Success"⟩] })

/-- Processing of one cell: the string/truthiness guard, the regex search,
and on a match the dispatch above; otherwise the cell and all state are
returned unchanged. -/
def processCell (cfg : Cfg) (sname : String) (r c : Nat) (v : Option CellValue)
    (ctx : SheetCtx) (g : GState) : Option CellValue × SheetCtx × GState :=
  match v with
  | some (CellValue.text s) =>
    if s = "" then (v, ctx, g)
    else
      match searchIMAGE s.data with
      | some url => processMatched cfg sname r c s (String.mk url) ctx g
      | none => (v, ctx, g)
  | _ => (v, ctx, g)

/-- Process the cells of one row left to right, starting at column `c`. -/
def processRow (cfg : Cfg) (sname : String) (r : Nat) :
    Nat → List (Option CellValue) → SheetCtx → GState →
    List (Option CellValue) × SheetCtx × GState
  | _, [], ctx, g => ([], ctx, g)
  | c, v :: vs, ctx, g =>
    let res := processCell cfg sname r c v ctx g
    let rest := processRow cfg sname r (c + 1) vs res.2.1 res.2.2
    (res.1 :: rest.1, rest.2)

/-- Process the rows of one sheet top to bottom, starting at row `r`. -/
def processRows (cfg : Cfg) (sname : String) :
    Nat → List (List (Option CellValue)) → SheetCtx → GState →
    List (List (Option CellValue)) × SheetCtx × GState
  | _, [], ctx, g => ([], ctx, g)
  | r, row :: rest, ctx, g =>
    let res := processRow cfg sname r 1 row ctx g
    let later := processRows cfg sname (r + 1) rest res.2.1 res.2.2
    (res.1 :: later.1, later.2)

/-- Process one worksheet. -/
def processSheet (cfg : Cfg) (sh : Sheet) (g : GState) : Sheet × GState :=
  let res := processRows cfg sh.name 1 sh.rows sh.ctx g
  ({ sh with rows := res.1, ctx := res.2.1 }, res.2.2)

/-- Process every worksheet in `workbook.sheetnames` order. -/
def processSheets (cfg : Cfg) : List Sheet → GState → List Sheet × GState
  | [], g => ([], g)
  | sh :: rest, g =>
    let res := processSheet cfg sh g
    let later := processSheets cfg rest res.2
    (res.1 :: later.1, later.2)

/-- The whole processing loop of `process_excel_with_images`, started from
the empty change/temp-file state. -/
def runProcess (cfg : Cfg) (wb : List Sheet) : List Sheet × GState :=
  processSheets cfg wb initG

/-- The full conversion including serialization and the `finally` cleanup:
returns the saved result (or the propagated serialization error, modelled by
the `saveFails` flag), together with the temp files still on disk after the
`finally` loop has deleted every member of `temp_files`. -/
def convert (cfg : Cfg) (saveFails : Bool) (wb : List Sheet) :
    Except String (List Sheet × List ChangeRecord) × List Nat :=
  let res := runProcess cfg wb
  let live := res.2.liveFiles.filter (fun f => !(res.2.tempFiles.contains f))
  (if saveFails then Except.error "save failed" else Except.ok (res.1, res.2.changes), live)

/-- The (sheet name, address) pairs of the matched cells of one row. -/
def matchedAddrsRow (sname : String) (r : Nat) :
    Nat → List (Option CellValue) → List (String × String)
  | _, [] => []
  | c, v :: vs =>
    (if cellMatches v then [(sname, cellAddr r c)] else []) ++ matchedAddrsRow sname r (c + 1) vs

/-- The (sheet name, address) pairs of the matched cells of a row block. -/
def matchedAddrsRows (sname : String) :
    Nat → List (List (Option CellValue)) → List (String × String)
  | _, [] => []
  | r, row :: rest => matchedAddrsRow sname r 1 row ++ matchedAddrsRows sname (r + 1) rest

/-- The (sheet name, address) pairs of all matched cells of the workbook,
in sheet-then-cell enumeration order. -/
def matchedAddrs : List Sheet → List (String × String)
  | [] => []
  | sh :: rest => matchedAddrsRows sh.name 1 sh.rows ++ matchedAddrs rest

/-- A cell whose text contains no `@IMAGE` token (non-text cells trivially). -/
def noTokenCell (v : Option CellValue) : Bool :=
  match v with
  | some (CellValue.text s) => !(hasTokenCI s.data)
  | _ => true

/-- No cell of the workbook contains the `@IMAGE` token. -/
def wbNoToken (wb : List Sheet) : Bool :=
  wb.all (fun sh => sh.rows.all (fun row => row.all noTokenCell))

/-- Configuration used in the dimension counterexample: EmbedImages mode,
cap 200, every fetch succeeding with a 40 by 40 image. -/
def cfgEmbed40 : Cfg := ⟨true, 200, fun _ => FetchOutcome.embedOk 40 40⟩

/-- Sheet used in the dimension counterexample: a non-matching cell A1 next
to a matching cell B1, with no dimensions set. -/
def sheetHelloImage : Sheet :=
  ⟨"Sheet1", [[some (CellValue.text "hello"), some (CellValue.text "=@IMAGE(\"http://a\")")]],
    ⟨[], [], []⟩⟩

/-- Taking while a predicate holds skips over a block where it always holds. -/
theorem takeWhile_append_all {p : Char → Bool} :
    ∀ {l1 l2 : List Char}, (∀ c ∈ l1, p c = true) →
      (l1 ++ l2).takeWhile p = l1 ++ l2.takeWhile p := by
  intro l1
  induction l1 with
  | nil => intro l2 _; simp
  | cons a l ih =>
    intro l2 h
    have ha : p a = true := h a (by simp)
    simp [List.takeWhile_cons, ha]
    exact ih fun c hc => h c (by simp [hc])

/-- Dropping while a predicate holds skips over a block where it always holds. -/
theorem dropWhile_append_all {p : Char → Bool} :
    ∀ {l1 l2 : List Char}, (∀ c ∈ l1, p c = true) →
      (l1 ++ l2).dropWhile p = l2.dropWhile p := by
  intro l1
  induction l1 with
  | nil => intro l2 _; simp
  | cons a l ih =>
    intro l2 h
    have ha : p a = true := h a (by simp)
    simp [List.dropWhile_cons, ha]
    exact ih fun c hc => h c (by simp [hc])

/-- A successful parse starts with the `@IMAGE` token. -/
theorem parse_strip {cs : List Char} {x : List Char × List Char}
    (h : parseAfterEq cs = some x) : (stripTokenCI imageTok cs).isSome := by
  unfold parseAfterEq at h
  cases hs : stripTokenCI imageTok cs with
  | none => rw [hs] at h; exact absurd h (by simp)
  | some r1 => simp

/-- A token strip fails on a case-insensitive character miss. -/
theorem stripTokenCI_cons_false {t : Char} {ts : List Char} {c : Char} {cs : List Char}
    (h : lowEq t c = false) : stripTokenCI (t :: ts) (c :: cs) = none := by
  simp [stripTokenCI, h]

/-- A successful token strip starts with a case-insensitive character hit. -/
theorem stripTokenCI_lowEq {t : Char} {ts : List Char} {c : Char} {cs r : List Char}
    (h : stripTokenCI (t :: ts) (c :: cs) = some r) : lowEq t c = true := by
  by_cases hl : lowEq t c
  · exact hl
  · simp [stripTokenCI, hl] at h

/-- A successful parse implies the input contains the `@IMAGE` token. -/
theorem hasTokenCI_of_parse {cs : List Char} {x : List Char × List Char}
    (h : parseAfterEq cs = some x) : hasTokenCI cs = true := by
  cases cs with
  | nil =>
    have : stripTokenCI imageTok ([] : List Char) = none := rfl
    have h2 := parse_strip h
    rw [this] at h2
    simp at h2
  | cons c rest =>
    have h2 := parse_strip h
    unfold hasTokenCI
    rw [Bool.or_eq_true]
    left
    exact h2

/-- A successful search implies the input contains the `@IMAGE` token. -/
theorem hasTokenCI_of_search : ∀ {cs u : List Char},
    searchIMAGE cs = some u → hasTokenCI cs = true := by
  intro cs
  induction cs with
  | nil => intro u h; simp [searchIMAGE] at h
  | cons c rest ih =>
    intro u h
    unfold searchIMAGE at h
    by_cases hc : c = '='
    · rw [if_pos hc] at h
      cases hp : parseAfterEq rest with
      | some x =>
        unfold hasTokenCI
        rw [Bool.or_eq_true]
        right
        cases rest with
        | nil =>
          have : stripTokenCI imageTok ([] : List Char) = none := rfl
          have h2 := parse_strip hp
          rw [this] at h2
          simp at h2
        | cons d ds =>
          unfold hasTokenCI
          rw [Bool.or_eq_true]
          left
          exact parse_strip hp
      | none =>
        rw [hp] at h
        unfold hasTokenCI
        rw [Bool.or_eq_true]
        right
        exact ih h
    · rw [if_neg hc] at h
      unfold hasTokenCI
      rw [Bool.or_eq_true]
      right
      exact ih h

/-- The rewrite of a nonempty text is nonempty. -/
theorem subAllFuel_ne_nil (fuel : Nat) (c : Char) (rest : List Char) :
    subAllFuel (fuel + 1) (c :: rest) ≠ [] := by
  unfold subAllFuel
  by_cases hc : c = '='
  · rw [if_pos hc]
    cases hp : parseAfterEq rest with
    | some x => obtain ⟨url, after⟩ := x; simp [normalizedChars]
    | none => simp
  · rw [if_neg hc]
    simp

/-- If the pattern matches somewhere, the rewrite changes the text. -/
theorem subAllFuel_ne_self : ∀ (fuel : Nat) (cs u : List Char),
    searchIMAGE cs = some u → cs.length ≤ fuel → subAllFuel fuel cs ≠ cs := by
  intro fuel
  induction fuel with
  | zero =>
    intro cs u hs hl
    have : cs = [] := List.length_eq_zero.mp (Nat.le_zero.mp hl)
    subst this
    simp [searchIMAGE] at hs
  | succ fuel ih =>
    intro cs u hs hl
    cases cs with
    | nil => simp [searchIMAGE] at hs
    | cons c rest =>
      unfold subAllFuel
      unfold searchIMAGE at hs
      by_cases hc : c = '='
      · rw [if_pos hc] at hs ⊢
        cases hp : parseAfterEq rest with
        | some x =>
          obtain ⟨url, after⟩ := x
          intro heq
          have hrest : rest = 'I' :: ('M' :: 'A' :: 'G' :: 'E' :: '(' :: dqChar ::
              (url ++ [dqChar, ')']) ++ subAllFuel fuel after) := by
            have h3 : 'I' :: ('M' :: 'A' :: 'G' :: 'E' :: '(' :: dqChar ::
                (url ++ [dqChar, ')']) ++ subAllFuel fuel after) = rest := by
              have := heq
              subst hc
              simpa [normalizedChars] using this
            exact h3.symm
          have h2 := parse_strip hp
          rw [hrest] at h2
          have himg : imageTok = '@' :: ['I', 'M', 'A', 'G', 'E'] := rfl
          rw [himg, stripTokenCI_cons_false (by decide)] at h2
          simp at h2
        | none =>
          rw [hp] at hs
          intro heq
          have h2 : subAllFuel fuel rest = rest := by
            have := heq
            subst hc
            simpa using this
          exact ih rest u hs (by simpa using Nat.le_of_succ_le_succ hl) h2
      · rw [if_neg hc] at hs ⊢
        intro heq
        have h2 : subAllFuel fuel rest = rest := (List.cons_eq_cons.mp heq).2
        exact ih rest u hs (by simpa using Nat.le_of_succ_le_succ hl) h2

/-- `re.sub` never empties a text the pattern matched. -/
theorem replaceImage_ne_empty {s : String} {u : List Char}
    (h : searchIMAGE s.data = some u) : replaceImage s ≠ "" := by
  cases hd : s.data with
  | nil => rw [hd] at h; simp [searchIMAGE] at h
  | cons c rest =>
    intro heq
    have h2 : subAll s.data = [] := by
      have : (replaceImage s).data = ("" : String).data := by rw [heq]
      simpa [replaceImage] using this
    rw [hd] at h2
    exact subAllFuel_ne_nil rest.length c rest (by simpa [subAll, hd] using h2)

/-- `re.sub` never returns the original text when the pattern matched. -/
theorem replaceImage_ne_self {s : String} {u : List Char}
    (h : searchIMAGE s.data = some u) : replaceImage s ≠ s := by
  intro heq
  have h2 : subAll s.data = s.data := by
    have : (replaceImage s).data = s.data := by rw [heq]
    simpa [replaceImage] using this
  exact subAllFuel_ne_self s.data.length s.data u h (Nat.le_refl _) h2

/-- The pattern part after `=` accepts a double-quote opening and a
single-quote closing around any nonempty quote-free body. -/
theorem parseAfterEq_mixed_dq_sq (a : Char) (tail : List Char)
    (hurl : ∀ c ∈ a :: tail, notQuote c = true) :
    parseAfterEq ('@' :: 'I' :: 'M' :: 'A' :: 'G' :: 'E' :: '(' :: dqChar ::
      ((a :: tail) ++ [sqChar, ')'])) = some (a :: tail, []) := by
  have hred : parseAfterEq ('@' :: 'I' :: 'M' :: 'A' :: 'G' :: 'E' :: '(' :: dqChar ::
      ((a :: tail) ++ [sqChar, ')'])) =
      (match List.takeWhile notQuote ((a :: tail) ++ [sqChar, ')']),
             List.dropWhile notQuote ((a :: tail) ++ [sqChar, ')']) with
       | body, _ :: r7 =>
         if body.isEmpty then none
         else
           match dropSpaces r7 with
           | ')' :: r9 => some (body, r9)
           | _ => none
       | _, [] => none) := rfl
  have htake : List.takeWhile notQuote ((a :: tail) ++ [sqChar, ')']) = a :: tail := by
    rw [takeWhile_append_all hurl,
      show List.takeWhile notQuote [sqChar, ')'] = [] from rfl]
    simp
  have hdropw : List.dropWhile notQuote ((a :: tail) ++ [sqChar, ')']) = [sqChar, ')'] := by
    rw [dropWhile_append_all hurl]
    rfl
  rw [hred, htake, hdropw]
  rfl

/-- The pattern part after `=` accepts a single-quote opening and a
double-quote closing around any nonempty quote-free body. -/
theorem parseAfterEq_mixed_sq_dq (a : Char) (tail : List Char)
    (hurl : ∀ c ∈ a :: tail, notQuote c = true) :
    parseAfterEq ('@' :: 'I' :: 'M' :: 'A' :: 'G' :: 'E' :: '(' :: sqChar ::
      ((a :: tail) ++ [dqChar, ')'])) = some (a :: tail, []) := by
  have hred : parseAfterEq ('@' :: 'I' :: 'M' :: 'A' :: 'G' :: 'E' :: '(' :: sqChar ::
      ((a :: tail) ++ [dqChar, ')'])) =
      (match List.takeWhile notQuote ((a :: tail) ++ [dqChar, ')']),
             List.dropWhile notQuote ((a :: tail) ++ [dqChar, ')']) with
       | body, _ :: r7 =>
         if body.isEmpty then none
         else
           match dropSpaces r7 with
           | ')' :: r9 => some (body, r9)
           | _ => none
       | _, [] => none) := rfl
  have htake : List.takeWhile notQuote ((a :: tail) ++ [dqChar, ')']) = a :: tail := by
    rw [takeWhile_append_all hurl,
      show List.takeWhile notQuote [dqChar, ')'] = [] from rfl]
    simp
  have hdropw : List.dropWhile notQuote ((a :: tail) ++ [dqChar, ')']) = [dqChar, ')'] := by
    rw [dropWhile_append_all hurl]
    rfl
  rw [hred, htake, hdropw]
  rfl

/-- A string with an empty character list is the empty string. -/
theorem string_eq_empty_of_data_nil {s : String} (h : s.data = []) : s = "" := by
  cases s
  simp_all

/-- Claim C10: the Formula Matcher does not require the opening and closing
quote characters to agree: for every cell text of the form `=@IMAGE("url')`
or `=@IMAGE('url")` — one double quote and one single quote around a
nonempty quote-free URL — a match is reported and the text between the two
quote characters is extracted as the URL. -/
theorem C10_mismatched_quotes_match (url : String) (hne : url ≠ "")
    (hq : ∀ c ∈ url.data, c ≠ dqChar ∧ c ≠ sqChar) :
    findImageUrl (String.mk ('=' :: '@' :: 'I' :: 'M' :: 'A' :: 'G' :: 'E' :: '(' :: dqChar ::
        (url.data ++ [sqChar, ')']))) = some url ∧
    findImageUrl (String.mk ('=' :: '@' :: 'I' :: 'M' :: 'A' :: 'G' :: 'E' :: '(' :: sqChar ::
        (url.data ++ [dqChar, ')']))) = some url := by
  have hq' : ∀ c ∈ url.data, notQuote c = true := by
    intro c hc
    obtain ⟨h1, h2⟩ := hq c hc
    simp [notQuote, isQuote, h1, h2]
  obtain ⟨a, tail, hd⟩ : ∃ a tail, url.data = a :: tail := by
    cases hdd : url.data with
    | nil => exact absurd (string_eq_empty_of_data_nil hdd) hne
    | cons a tail => exact ⟨a, tail, rfl⟩
  rw [hd] at hq'
  constructor
  · have hsearch : searchIMAGE ('=' :: '@' :: 'I' :: 'M' :: 'A' :: 'G' :: 'E' :: '(' :: dqChar ::
        ((a :: tail) ++ [sqChar, ')'])) = some (a :: tail) := by
      unfold searchIMAGE
      rw [if_pos rfl, parseAfterEq_mixed_dq_sq a tail hq']
    unfold findImageUrl
    rw [hd]
    show (searchIMAGE ('=' :: '@' :: 'I' :: 'M' :: 'A' :: 'G' :: 'E' :: '(' :: dqChar ::
        ((a :: tail) ++ [sqChar, ')']))).map String.mk = some url
    rw [hsearch]
    simp
    rw [← hd]
  · have hsearch : searchIMAGE ('=' :: '@' :: 'I' :: 'M' :: 'A' :: 'G' :: 'E' :: '(' :: sqChar ::
        ((a :: tail) ++ [dqChar, ')'])) = some (a :: tail) := by
      unfold searchIMAGE
      rw [if_pos rfl, parseAfterEq_mixed_sq_dq a tail hq']
    unfold findImageUrl
    rw [hd]
    show (searchIMAGE ('=' :: '@' :: 'I' :: 'M' :: 'A' :: 'G' :: 'E' :: '(' :: sqChar ::
        ((a :: tail) ++ [dqChar, ')']))).map String.mk = some url
    rw [hsearch]
    simp
    rw [← hd]

/-- Witness for C10 at url = "link". -/
theorem C10_witness :
    ("link" : String) ≠ "" ∧ (∀ c ∈ ("link" : String).data, c ≠ dqChar ∧ c ≠ sqChar) ∧
    findImageUrl (String.mk ('=' :: '@' :: 'I' :: 'M' :: 'A' :: 'G' :: 'E' :: '(' :: dqChar ::
        (("link" : String).data ++ [sqChar, ')']))) = some "link" := by
  refine ⟨by decide, by decide, ?_⟩
  exact (C10_mismatched_quotes_match "link" (by decide) (by decide)).1

/-- Claim C1: the Formula Matcher is claimed (by the spec and by the app's
own help text) to accept optional whitespace between the equals sign and
`@IMAGE`.  The source regex `=@IMAGE\s*\(...` has no whitespace class there,
so `= @IMAGE("link")` (and the help-text example `= @IMAGE( "link" )`) does
not match, while the space-free form does. -/
theorem C1_eval :
    findImageUrl "= @IMAGE(\"link\")" = none ∧
    findImageUrl "= @IMAGE( \"link\" )" = none ∧
    findImageUrl "=@IMAGE(\"link\")" = some "link" := by decide

/-- `qmax` dominates its first argument. -/
theorem le_qmax_left (a b : ℚ) : a ≤ qmax a b := by
  unfold qmax
  split
  · assumption
  · exact le_refl a

/-- `qmax` dominates its second argument. -/
theorem le_qmax_right (a b : ℚ) : b ≤ qmax a b := by
  unfold qmax
  split
  · exact le_refl b
  · exact le_of_not_le (by assumption)

/-- `qmax` keeps a first argument that already dominates. -/
theorem qmax_eq_left {a b : ℚ} (h : b ≤ a) : qmax a b = a := by
  unfold qmax
  split
  · exact (le_antisymm (by assumption) h).symm
  · rfl

/-- Looking up a dimension right after setting it. -/
theorem getDim_setDim_same : ∀ (l : List (Nat × ℚ)) (k : Nat) (x : ℚ),
    getDim (setDim l k x) k = some x := by
  intro l
  induction l with
  | nil => intro k x; simp [setDim, getDim]
  | cons p rest ih =>
    intro k x
    obtain ⟨k0, v⟩ := p
    by_cases h : k0 = k
    · simp [setDim, h, getDim]
    · simp [setDim, h, getDim, ih]

/-- Elimination for a matched cell: it holds a nonempty text that matches. -/
theorem cellMatches_true_elim {v : Option CellValue} (h : cellMatches v = true) :
    ∃ s u, v = some (CellValue.text s) ∧ s ≠ "" ∧ searchIMAGE s.data = some u := by
  match v with
  | none => simp [cellMatches] at h
  | some CellValue.other => simp [cellMatches] at h
  | some (CellValue.text s) =>
    rw [cellMatches, Bool.and_eq_true] at h
    obtain ⟨h1, h2⟩ := h
    rw [Option.isSome_iff_exists] at h2
    obtain ⟨u, hu⟩ := h2
    exact ⟨s, u, rfl, by simpa using h1, hu⟩

/-- A cell without the `@IMAGE` token is not matched. -/
theorem cellMatches_eq_false_of_noToken {v : Option CellValue}
    (h : noTokenCell v = true) : cellMatches v = false := by
  match v with
  | none => rfl
  | some CellValue.other => rfl
  | some (CellValue.text s) =>
    rw [Bool.eq_false_iff]
    intro hm
    obtain ⟨s2, u, hv, _, hu⟩ := cellMatches_true_elim hm
    obtain rfl : s2 = s := by simpa using hv.symm
    have := hasTokenCI_of_search hu
    simp [noTokenCell, this] at h

/-- A non-matching cell is processed as the identity on cell and state. -/
theorem processCell_not_matched {cfg : Cfg} {sname : String} {r c : Nat}
    {v : Option CellValue} {ctx : SheetCtx} {g : GState}
    (h : cellMatches v = false) : processCell cfg sname r c v ctx g = (v, ctx, g) := by
  match v with
  | none => rfl
  | some CellValue.other => rfl
  | some (CellValue.text s) =>
    rw [cellMatches] at h
    by_cases hs : s = ""
    · simp [processCell, hs]
    · rw [Bool.and_eq_false_iff] at h
      cases h with
      | inl h => simp [hs] at h
      | inr h =>
        cases hse : searchIMAGE s.data with
        | none => simp [processCell, hs, hse]
        | some u => rw [hse] at h; simp at h

/-- A matched cell is processed by the matched-cell dispatch with the first
match's URL. -/
theorem processCell_matched {cfg : Cfg} {sname : String} {r c : Nat} {s : String}
    {u : List Char} {ctx : SheetCtx} {g : GState} (hs : s ≠ "")
    (hm : searchIMAGE s.data = some u) :
    processCell cfg sname r c (some (CellValue.text s)) ctx g =
      processMatched cfg sname r c s (String.mk u) ctx g := by
  simp [processCell, hs, hm]

/-- The matched-cell dispatch appends exactly one change record, carrying
the sheet name and the cell's address. -/
theorem processMatched_changes (cfg : Cfg) (sname : String) (r c : Nat)
    (s url : String) (ctx : SheetCtx) (g : GState) :
    ∃ rec : ChangeRecord,
      (processMatched cfg sname r c s url ctx g).2.2.changes = g.changes ++ [rec] ∧
      rec.sheet = sname ∧ rec.cellRef = cellAddr r c := by
  unfold processMatched
  by_cases hmode : cfg.insertImages
  · rw [if_pos hmode]
    cases henv : cfg.env url with
    | fetchFail msg => exact ⟨_, rfl, rfl, rfl⟩
    | embedFail w h msg => exact ⟨_, rfl, rfl, rfl⟩
    | embedOk w h => exact ⟨_, rfl, rfl, rfl⟩
  · rw [if_neg hmode]
    exact ⟨_, rfl, rfl, rfl⟩

/-- One processing step appends one change record for a matched cell and
none otherwise, with the record carrying the cell's sheet and address. -/
theorem processCell_changes (cfg : Cfg) (sname : String) (r c : Nat)
    (v : Option CellValue) (ctx : SheetCtx) (g : GState) :
    ∃ tail, (processCell cfg sname r c v ctx g).2.2.changes = g.changes ++ tail ∧
      tail.map (fun rec => (rec.sheet, rec.cellRef)) =
        if cellMatches v then [(sname, cellAddr r c)] else [] := by
  cases hm : cellMatches v with
  | false =>
    rw [processCell_not_matched hm]
    exact ⟨[], by simp⟩
  | true =>
    obtain ⟨s, u, hv, hs, hu⟩ := cellMatches_true_elim hm
    subst hv
    rw [processCell_matched hs hu]
    obtain ⟨rec, h1, h2, h3⟩ := processMatched_changes cfg sname r c s (String.mk u) ctx g
    exact ⟨[rec], by simp [h1, h2, h3]⟩

/-- The matched-cell dispatch appends the same (possibly empty) batch of
fresh temp files to `temp_files` and to the set of files on disk. -/
theorem processMatched_files (cfg : Cfg) (sname : String) (r c : Nat)
    (s url : String) (ctx : SheetCtx) (g : GState) :
    ∃ new, (processMatched cfg sname r c s url ctx g).2.2.tempFiles = g.tempFiles ++ new ∧
      (processMatched cfg sname r c s url ctx g).2.2.liveFiles = g.liveFiles ++ new := by
  unfold processMatched
  by_cases hmode : cfg.insertImages
  · rw [if_pos hmode]
    cases henv : cfg.env url with
    | fetchFail msg => exact ⟨[], by simp, by simp⟩
    | embedFail w h msg => exact ⟨[g.nextId], rfl, rfl⟩
    | embedOk w h => exact ⟨[g.nextId], rfl, rfl⟩
  · rw [if_neg hmode]
    exact ⟨[], by simp, by simp⟩

/-- One processing step appends the same batch of fresh temp files to
`temp_files` and to the set of files on disk. -/
theorem processCell_files (cfg : Cfg) (sname : String) (r c : Nat)
    (v : Option CellValue) (ctx : SheetCtx) (g : GState) :
    ∃ new, (processCell cfg sname r c v ctx g).2.2.tempFiles = g.tempFiles ++ new ∧
      (processCell cfg sname r c v ctx g).2.2.liveFiles = g.liveFiles ++ new := by
  cases hm : cellMatches v with
  | false =>
    rw [processCell_not_matched hm]
    exact ⟨[], by simp, by simp⟩
  | true =>
    obtain ⟨s, u, hv, hs, hu⟩ := cellMatches_true_elim hm
    subst hv
    rw [processCell_matched hs hu]
    exact processMatched_files cfg sname r c s (String.mk u) ctx g

/-- Row processing appends one change record per matched cell, in cell
enumeration order. -/
theorem processRow_changes (cfg : Cfg) (sname : String) (r : Nat) :
    ∀ (vs : List (Option CellValue)) (c : Nat) (ctx : SheetCtx) (g : GState),
    ∃ tail, (processRow cfg sname r c vs ctx g).2.2.changes = g.changes ++ tail ∧
      tail.map (fun rec => (rec.sheet, rec.cellRef)) = matchedAddrsRow sname r c vs := by
  intro vs
  induction vs with
  | nil => intro c ctx g; exact ⟨[], by simp [processRow, matchedAddrsRow]⟩
  | cons v vs ih =>
    intro c ctx g
    obtain ⟨t1, h1, h1m⟩ := processCell_changes cfg sname r c v ctx g
    obtain ⟨t2, h2, h2m⟩ := ih (c + 1) (processCell cfg sname r c v ctx g).2.1
      (processCell cfg sname r c v ctx g).2.2
    refine ⟨t1 ++ t2, ?_, ?_⟩
    · simp only [processRow]
      rw [h2, h1, List.append_assoc]
    · simp only [matchedAddrsRow]
      rw [List.map_append, h1m, h2m]

/-- Sheet-row processing appends one change record per matched cell, in
row-then-cell enumeration order. -/
theorem processRows_changes (cfg : Cfg) (sname : String) :
    ∀ (rows : List (List (Option CellValue))) (r : Nat) (ctx : SheetCtx) (g : GState),
    ∃ tail, (processRows cfg sname r rows ctx g).2.2.changes = g.changes ++ tail ∧
      tail.map (fun rec => (rec.sheet, rec.cellRef)) = matchedAddrsRows sname r rows := by
  intro rows
  induction rows with
  | nil => intro r ctx g; exact ⟨[], by simp [processRows, matchedAddrsRows]⟩
  | cons row rows ih =>
    intro r ctx g
    obtain ⟨t1, h1, h1m⟩ := processRow_changes cfg sname r row 1 ctx g
    obtain ⟨t2, h2, h2m⟩ := ih (r + 1) (processRow cfg sname r 1 row ctx g).2.1
      (processRow cfg sname r 1 row ctx g).2.2
    refine ⟨t1 ++ t2, ?_, ?_⟩
    · simp only [processRows]
      rw [h2, h1, List.append_assoc]
    · simp only [matchedAddrsRows]
      rw [List.map_append, h1m, h2m]

/-- Workbook processing appends one change record per matched cell, in
sheet-then-cell enumeration order. -/
theorem processSheets_changes (cfg : Cfg) :
    ∀ (wb : List Sheet) (g : GState),
    ∃ tail, (processSheets cfg wb g).2.changes = g.changes ++ tail ∧
      tail.map (fun rec => (rec.sheet, rec.cellRef)) = matchedAddrs wb := by
  intro wb
  induction wb with
  | nil => intro g; exact ⟨[], by simp [processSheets, matchedAddrs]⟩
  | cons sh rest ih =>
    intro g
    obtain ⟨t1, h1, h1m⟩ := processRows_changes cfg sh.name sh.rows 1 sh.ctx g
    obtain ⟨t2, h2, h2m⟩ := ih (processSheet cfg sh g).2
    refine ⟨t1 ++ t2, ?_, ?_⟩
    · simp only [processSheets]
      rw [h2]
      simp only [processSheet]
      rw [h1, List.append_assoc]
    · simp only [matchedAddrs]
      rw [List.map_append, h1m, h2m]

/-- Claim C3: for every input workbook and either mode, the conversion
produces exactly one Change Record per matched cell — the (sheet, address)
projection of the change list equals the matched-cell list in
sheet-then-cell enumeration order, and in particular the lengths agree. -/
theorem C3_one_record_per_match (cfg : Cfg) (wb : List Sheet) :
    (runProcess cfg wb).2.changes.map (fun rec => (rec.sheet, rec.cellRef)) =
      matchedAddrs wb ∧
    (runProcess cfg wb).2.changes.length = (matchedAddrs wb).length := by
  obtain ⟨tail, h1, h2⟩ := processSheets_changes cfg wb initG
  have hch : (runProcess cfg wb).2.changes = tail := by
    rw [runProcess, h1]
    simp [initG]
  constructor
  · rw [hch, h2]
  · rw [hch, ← h2, List.length_map]

/-- Row processing appends the same batch of fresh temp files to
`temp_files` and to the files on disk. -/
theorem processRow_files (cfg : Cfg) (sname : String) (r : Nat) :
    ∀ (vs : List (Option CellValue)) (c : Nat) (ctx : SheetCtx) (g : GState),
    ∃ new, (processRow cfg sname r c vs ctx g).2.2.tempFiles = g.tempFiles ++ new ∧
      (processRow cfg sname r c vs ctx g).2.2.liveFiles = g.liveFiles ++ new := by
  intro vs
  induction vs with
  | nil => intro c ctx g; exact ⟨[], by simp [processRow], by simp [processRow]⟩
  | cons v vs ih =>
    intro c ctx g
    obtain ⟨n1, h1t, h1l⟩ := processCell_files cfg sname r c v ctx g
    obtain ⟨n2, h2t, h2l⟩ := ih (c + 1) (processCell cfg sname r c v ctx g).2.1
      (processCell cfg sname r c v ctx g).2.2
    refine ⟨n1 ++ n2, ?_, ?_⟩
    · simp only [processRow]
      rw [h2t, h1t, List.append_assoc]
    · simp only [processRow]
      rw [h2l, h1l, List.append_assoc]

/-- Sheet-row processing appends the same batch of fresh temp files to
`temp_files` and to the files on disk. -/
theorem processRows_files (cfg : Cfg) (sname : String) :
    ∀ (rows : List (List (Option CellValue))) (r : Nat) (ctx : SheetCtx) (g : GState),
    ∃ new, (processRows cfg sname r rows ctx g).2.2.tempFiles = g.tempFiles ++ new ∧
      (processRows cfg sname r rows ctx g).2.2.liveFiles = g.liveFiles ++ new := by
  intro rows
  induction rows with
  | nil => intro r ctx g; exact ⟨[], by simp [processRows], by simp [processRows]⟩
  | cons row rows ih =>
    intro r ctx g
    obtain ⟨n1, h1t, h1l⟩ := processRow_files cfg sname r row 1 ctx g
    obtain ⟨n2, h2t, h2l⟩ := ih (r + 1) (processRow cfg sname r 1 row ctx g).2.1
      (processRow cfg sname r 1 row ctx g).2.2
    refine ⟨n1 ++ n2, ?_, ?_⟩
    · simp only [processRows]
      rw [h2t, h1t, List.append_assoc]
    · simp only [processRows]
      rw [h2l, h1l, List.append_assoc]

/-- Workbook processing appends the same batch of fresh temp files to
`temp_files` and to the files on disk. -/
theorem processSheets_files (cfg : Cfg) :
    ∀ (wb : List Sheet) (g : GState),
    ∃ new, (processSheets cfg wb g).2.tempFiles = g.tempFiles ++ new ∧
      (processSheets cfg wb g).2.liveFiles = g.liveFiles ++ new := by
  intro wb
  induction wb with
  | nil => intro g; exact ⟨[], by simp [processSheets], by simp [processSheets]⟩
  | cons sh rest ih =>
    intro g
    obtain ⟨n1, h1t, h1l⟩ := processRows_files cfg sh.name sh.rows 1 sh.ctx g
    obtain ⟨n2, h2t, h2l⟩ := ih (processSheet cfg sh g).2
    refine ⟨n1 ++ n2, ?_, ?_⟩
    · simp only [processSheets]
      rw [h2t]
      simp only [processSheet]
      rw [h1t, List.append_assoc]
    · simp only [processSheets]
      rw [h2l]
      simp only [processSheet]
      rw [h1l, List.append_assoc]

/-- After the whole processing loop, exactly the files recorded in
`temp_files` are on disk. -/
theorem runProcess_live_eq_temp (cfg : Cfg) (wb : List Sheet) :
    (runProcess cfg wb).2.liveFiles = (runProcess cfg wb).2.tempFiles := by
  obtain ⟨new, ht, hl⟩ := processSheets_files cfg wb initG
  show (processSheets cfg wb initG).2.liveFiles = (processSheets cfg wb initG).2.tempFiles
  rw [ht, hl]
  simp [initG]

/-- Filtering away everything contained in a superset leaves nothing. -/
theorem filter_not_contains_sub : ∀ (l m : List Nat), (∀ a ∈ l, a ∈ m) →
    l.filter (fun f => !(m.contains f)) = [] := by
  intro l m
  induction l with
  | nil => intro _; rfl
  | cons a l ih =>
    intro h
    have ha : a ∈ m := h a (by simp)
    have hc : m.contains a = true := by simpa using ha
    simp only [List.filter_cons, hc, Bool.not_true]
    exact ih fun b hb => h b (by simp [hb])

/-- Claim C4 (amended): transient temp files from embed-success and
embed-failure cells are retained in `temp_files` until the end of the
convert call; the outer guaranteed-cleanup scope (`finally`) then deletes
every one of them, whether or not workbook serialization fails, so no
transient resource survives the end of the convert call. -/
theorem C4_cleanup_at_end (cfg : Cfg) (saveFails : Bool) (wb : List Sheet) :
    (convert cfg saveFails wb).2 = [] := by
  show (runProcess cfg wb).2.liveFiles.filter
      (fun f => !((runProcess cfg wb).2.tempFiles.contains f)) = []
  rw [runProcess_live_eq_temp]
  exact filter_not_contains_sub _ _ (fun a ha => ha)

/-- Counterexample to claim C4 as stated: in EmbedImages mode with two
matched cells that both fetch and embed successfully, after ALL cells have
been processed (so in particular after the orchestrator moved from the
first matched cell to the second) both temporary image files are still on
disk: nothing is released per cell, only the final cleanup deletes them. -/
theorem C4_counterexample :
    (runProcess ⟨true, 200, fun _ => FetchOutcome.embedOk 40 40⟩
      [⟨"Sheet1", [[some (CellValue.text "=@IMAGE(\"http://a\")"),
                    some (CellValue.text "=@IMAGE(\"http://b\")")]], ⟨[], [], []⟩⟩]).2.liveFiles
      = [0, 1] ∧ ([0, 1] : List Nat) ≠ [] := by
  constructor
  · decide
  · decide

/-- A row with no matched cell is processed as the identity. -/
theorem processRow_id (cfg : Cfg) (sname : String) (r : Nat) :
    ∀ (vs : List (Option CellValue)) (c : Nat) (ctx : SheetCtx) (g : GState),
    (∀ v ∈ vs, cellMatches v = false) → processRow cfg sname r c vs ctx g = (vs, ctx, g) := by
  intro vs
  induction vs with
  | nil => intro c ctx g _; rfl
  | cons v vs ih =>
    intro c ctx g h
    have hv : cellMatches v = false := h v (by simp)
    simp only [processRow, processCell_not_matched hv]
    rw [ih (c + 1) ctx g fun w hw => h w (by simp [hw])]

/-- A row block with no matched cell is processed as the identity. -/
theorem processRows_id (cfg : Cfg) (sname : String) :
    ∀ (rows : List (List (Option CellValue))) (r : Nat) (ctx : SheetCtx) (g : GState),
    (∀ row ∈ rows, ∀ v ∈ row, cellMatches v = false) →
    processRows cfg sname r rows ctx g = (rows, ctx, g) := by
  intro rows
  induction rows with
  | nil => intro r ctx g _; rfl
  | cons row rows ih =>
    intro r ctx g h
    have hrow : ∀ v ∈ row, cellMatches v = false := h row (by simp)
    simp only [processRows, processRow_id cfg sname r row 1 ctx g hrow]
    rw [ih (r + 1) ctx g fun rw2 hrw2 => h rw2 (by simp [hrw2])]

/-- A workbook with no matched cell is processed as the identity. -/
theorem processSheets_id (cfg : Cfg) :
    ∀ (wb : List Sheet) (g : GState),
    (∀ sh ∈ wb, ∀ row ∈ sh.rows, ∀ v ∈ row, cellMatches v = false) →
    processSheets cfg wb g = (wb, g) := by
  intro wb
  induction wb with
  | nil => intro g _; rfl
  | cons sh rest ih =>
    intro g h
    have hsh : ∀ row ∈ sh.rows, ∀ v ∈ row, cellMatches v = false := h sh (by simp)
    have hid : processSheet cfg sh g = (sh, g) := by
      simp only [processSheet, processRows_id cfg sh.name sh.rows 1 sh.ctx g hsh]
    simp only [processSheets, hid]
    rw [ih g fun sh2 hsh2 => h sh2 (by simp [hsh2])]

/-- Claim C9: TextOnly mode is idempotent at the fixed point: applying the
conversion in TextOnly mode to a workbook whose cell texts contain no
`@IMAGE` token (such as the output of a previous TextOnly run, which holds
only normalized formulas) produces zero Change Records and rewrites no
cell. -/
theorem C9_textonly_fixed_point (cfg : Cfg) (wb : List Sheet)
    (hmode : cfg.insertImages = false) (htok : wbNoToken wb = true) :
    (runProcess cfg wb).1 = wb ∧ (runProcess cfg wb).2.changes = [] := by
  have hall : ∀ sh ∈ wb, ∀ row ∈ sh.rows, ∀ v ∈ row, cellMatches v = false := by
    intro sh hsh row hrow v hv
    rw [wbNoToken, List.all_eq_true] at htok
    have h1 := htok sh hsh
    rw [List.all_eq_true] at h1
    have h2 := h1 row hrow
    rw [List.all_eq_true] at h2
    exact cellMatches_eq_false_of_noToken (h2 v hv)
  have hid : processSheets cfg wb initG = (wb, initG) := processSheets_id cfg wb initG hall
  constructor
  · show (processSheets cfg wb initG).1 = wb
    rw [hid]
  · show (processSheets cfg wb initG).2.changes = []
    rw [hid]
    rfl

/-- Witness for C9 on a workbook holding only a normalized formula. -/
theorem C9_witness :
    ((⟨false, 200, fun _ => FetchOutcome.fetchFail "off"⟩ : Cfg).insertImages = false ∧
      wbNoToken [⟨"Sheet1", [[some (CellValue.text "=IMAGE(\"http://a\")"), none]],
        ⟨[], [], []⟩⟩] = true) ∧
    (runProcess ⟨false, 200, fun _ => FetchOutcome.fetchFail "off"⟩
      [⟨"Sheet1", [[some (CellValue.text "=IMAGE(\"http://a\")"), none]], ⟨[], [], []⟩⟩]).1 =
      [⟨"Sheet1", [[some (CellValue.text "=IMAGE(\"http://a\")"), none]], ⟨[], [], []⟩⟩] ∧
    (runProcess ⟨false, 200, fun _ => FetchOutcome.fetchFail "off"⟩
      [⟨"Sheet1", [[some (CellValue.text "=IMAGE(\"http://a\")"), none]], ⟨[], [], []⟩⟩]).2.changes =
      [] := by
  refine ⟨⟨rfl, by decide⟩, ?_⟩
  exact C9_textonly_fixed_point _ _ rfl (by decide)

/-- Row processing leaves the value of a non-matching cell unchanged. -/
theorem processRow_get (cfg : Cfg) (sname : String) (r : Nat) :
    ∀ (vs : List (Option CellValue)) (c : Nat) (ctx : SheetCtx) (g : GState)
      (ci : Nat) (v : Option CellValue),
    vs.get? ci = some v → cellMatches v = false →
    (processRow cfg sname r c vs ctx g).1.get? ci = some v := by
  intro vs
  induction vs with
  | nil => intro c ctx g ci v h _; simp at h
  | cons v0 vs ih =>
    intro c ctx g ci v h hm
    cases ci with
    | zero =>
      obtain rfl : v0 = v := by simpa using h
      simp only [processRow, processCell_not_matched hm]
      rfl
    | succ n =>
      simp only [processRow, List.get?_cons_succ]
      exact ih (c + 1) _ _ n v (by simpa using h) hm

/-- Sheet-row processing leaves the value of a non-matching cell
unchanged. -/
theorem processRows_get (cfg : Cfg) (sname : String) :
    ∀ (rows : List (List (Option CellValue))) (r : Nat) (ctx : SheetCtx) (g : GState)
      (ri : Nat) (row : List (Option CellValue)) (ci : Nat) (v : Option CellValue),
    rows.get? ri = some row → row.get? ci = some v → cellMatches v = false →
    ∃ row', (processRows cfg sname r rows ctx g).1.get? ri = some row' ∧
      row'.get? ci = some v := by
  intro rows
  induction rows with
  | nil => intro r ctx g ri row ci v h _ _; simp at h
  | cons row0 rows ih =>
    intro r ctx g ri row ci v h hc hm
    cases ri with
    | zero =>
      obtain rfl : row0 = row := by simpa using h
      refine ⟨(processRow cfg sname r 1 row0 ctx g).1, ?_, ?_⟩
      · simp only [processRows]
        rfl
      · exact processRow_get cfg sname r row0 1 ctx g ci v hc hm
    | succ n =>
      obtain ⟨row', h1, h2⟩ := ih (r + 1) (processRow cfg sname r 1 row0 ctx g).2.1
        (processRow cfg sname r 1 row0 ctx g).2.2 n row ci v (by simpa using h) hc hm
      exact ⟨row', by simpa only [processRows, List.get?_cons_succ] using h1, h2⟩

/-- Workbook processing leaves the value of a non-matching cell
unchanged. -/
theorem processSheets_get (cfg : Cfg) :
    ∀ (wb : List Sheet) (g : GState) (si : Nat) (sh : Sheet) (ri : Nat)
      (row : List (Option CellValue)) (ci : Nat) (v : Option CellValue),
    wb.get? si = some sh → sh.rows.get? ri = some row → row.get? ci = some v →
    cellMatches v = false →
    ∃ sh', (processSheets cfg wb g).1.get? si = some sh' ∧ sh'.name = sh.name ∧
      ∃ row', sh'.rows.get? ri = some row' ∧ row'.get? ci = some v := by
  intro wb
  induction wb with
  | nil => intro g si sh ri row ci v h _ _ _; simp at h
  | cons sh0 rest ih =>
    intro g si sh ri row ci v h hr hc hm
    cases si with
    | zero =>
      obtain rfl : sh0 = sh := by simpa using h
      obtain ⟨row', h1, h2⟩ :=
        processRows_get cfg sh0.name sh0.rows 1 sh0.ctx g ri row ci v hr hc hm
      refine ⟨(processSheet cfg sh0 g).1, ?_, rfl, row', ?_, h2⟩
      · simp only [processSheets]
        rfl
      · show (processRows cfg sh0.name 1 sh0.rows sh0.ctx g).1.get? ri = some row'
        exact h1
    | succ n =>
      obtain ⟨sh', h1, h2, hrest⟩ := ih (processSheet cfg sh0 g).2 n sh ri row ci v
        (by simpa using h) hr hc hm
      exact ⟨sh', by simpa only [processSheets, List.get?_cons_succ] using h1, h2, hrest⟩

/-- Claim C8 (amended): for every cell whose value does not match the
pattern — including non-text values, for which the matcher is never even
consulted — the Formula Matcher reports no match and the conversion leaves
the cell's value unchanged, in both modes; the processing step of such a
cell changes no state at all.  (Unlike the original claim, the row/column
dimensions shared with other cells are not guaranteed unchanged: they can
grow when a different, matching cell of the same row or column receives an
embedded image; see the counterexample.) -/
theorem C8_nonmatching_value_unchanged (cfg : Cfg) (wb : List Sheet)
    (si ri ci : Nat) (sh : Sheet) (row : List (Option CellValue)) (v : Option CellValue)
    (hs : wb.get? si = some sh) (hr : sh.rows.get? ri = some row)
    (hc : row.get? ci = some v) (hm : cellMatches v = false) :
    (∀ (sname : String) (r c : Nat) (ctx : SheetCtx) (g : GState),
      processCell cfg sname r c v ctx g = (v, ctx, g)) ∧
    ∃ sh', (runProcess cfg wb).1.get? si = some sh' ∧ sh'.name = sh.name ∧
      ∃ row', sh'.rows.get? ri = some row' ∧ row'.get? ci = some v := by
  constructor
  · intro sname r c ctx g
    exact processCell_not_matched hm
  · exact processSheets_get cfg wb initG si sh ri row ci v hs hr hc hm

/-- Witness for C8 on a one-cell workbook holding a plain text. -/
theorem C8_witness :
    (([⟨"Sheet1", [[some (CellValue.text "hello")]], ⟨[], [], []⟩⟩] :
        List Sheet).get? 0 = some ⟨"Sheet1", [[some (CellValue.text "hello")]], ⟨[], [], []⟩⟩ ∧
      cellMatches (some (CellValue.text "hello")) = false) ∧
    ((∀ (sname : String) (r c : Nat) (ctx : SheetCtx) (g : GState),
      processCell ⟨true, 200, fun _ => FetchOutcome.fetchFail "off"⟩ sname r c
        (some (CellValue.text "hello")) ctx g = (some (CellValue.text "hello"), ctx, g)) ∧
    ∃ sh', (runProcess ⟨true, 200, fun _ => FetchOutcome.fetchFail "off"⟩
        [⟨"Sheet1", [[some (CellValue.text "hello")]], ⟨[], [], []⟩⟩]).1.get? 0 = some sh' ∧
      sh'.name = "Sheet1" ∧
      ∃ row', sh'.rows.get? 0 = some row' ∧ row'.get? 0 = some (some (CellValue.text "hello"))) := by
  refine ⟨⟨rfl, by decide⟩, ?_⟩
  exact C8_nonmatching_value_unchanged ⟨true, 200, fun _ => FetchOutcome.fetchFail "off"⟩
    [⟨"Sheet1", [[some (CellValue.text "hello")]], ⟨[], [], []⟩⟩] 0 0 0
    ⟨"Sheet1", [[some (CellValue.text "hello")]], ⟨[], [], []⟩⟩
    [some (CellValue.text "hello")] (some (CellValue.text "hello"))
    rfl rfl rfl (by decide)

/-- Counterexample to claim C8 as stated: cell A1 of `sheetHelloImage` does
not match, yet after EmbedImages conversion the height of its row changed
from unset to 30 points, because the matching cell B1 of the same row
received an embedded image.  Non-matching cells keep their value but not
necessarily their row/column dimensions. -/
theorem C8_counterexample :
    cellMatches (some (CellValue.text "hello")) = false ∧
    getDim sheetHelloImage.ctx.rowHeights 1 = none ∧
    (runProcess cfgEmbed40 [sheetHelloImage]).1.map
      (fun sh => getDim sh.ctx.rowHeights 1) = [some 30] := by
  refine ⟨by decide, rfl, ?_⟩
  have h1 : (runProcess cfgEmbed40 [sheetHelloImage]).1.map
      (fun sh => getDim sh.ctx.rowHeights 1) =
      [some (qmax (orDefault (getDim ([] : List (Nat × ℚ)) 1) 15)
        (((min 40 200 : Nat) : ℚ) * (3 / 4)))] := rfl
  rw [h1]
  norm_num [qmax, orDefault, getDim]

/-- Claim C2 (amended): for every matched cell in EmbedImages mode whose
fetch fails, the cell's final text is the original text with every pattern
occurrence replaced by the normalized formula `=IMAGE("url")` — exactly the
normalized formula whenever the original text is exactly the pattern — and
it is never the original unmatched text and never empty; the sheet state is
untouched and exactly one Change Record is appended, with action
"Formula replaced (download failed)" and a status carrying the error
detail. -/
theorem C2_fetch_fail_rewrites (cfg : Cfg) (sname : String) (r c : Nat)
    (s : String) (u : List Char) (msg : String) (ctx : SheetCtx) (g : GState)
    (hmode : cfg.insertImages = true) (hs : s ≠ "")
    (hm : searchIMAGE s.data = some u)
    (henv : cfg.env (String.mk u) = FetchOutcome.fetchFail msg) :
    (processCell cfg sname r c (some (CellValue.text s)) ctx g).1 =
      some (CellValue.text (replaceImage s)) ∧
    replaceImage s ≠ s ∧ replaceImage s ≠ "" ∧
    (processCell cfg sname r c (some (CellValue.text s)) ctx g).2.1 = ctx ∧
    (processCell cfg sname r c (some (CellValue.text s)) ctx g).2.2.changes =
      g.changes ++ [⟨sname, cellAddr r c, s, "Formula replaced (download failed)",
        String.mk u, "Error: " ++ msg⟩] := by
  rw [processCell_matched hs hm]
  refine ⟨?_, replaceImage_ne_self hm, replaceImage_ne_empty hm, ?_, ?_⟩ <;>
    simp [processMatched, hmode, henv]

/-- Witness for C2: a cell that is exactly the pattern, with a failing
fetch; the final text is exactly the normalized formula. -/
theorem C2_witness :
    ((⟨true, 200, fun _ => FetchOutcome.fetchFail "boom"⟩ : Cfg).insertImages = true ∧
      ("=@IMAGE(\"u\")" : String) ≠ "" ∧
      searchIMAGE ("=@IMAGE(\"u\")" : String).data = some ("u" : String).data ∧
      (⟨true, 200, fun _ => FetchOutcome.fetchFail "boom"⟩ : Cfg).env
        (String.mk ("u" : String).data) = FetchOutcome.fetchFail "boom") ∧
    replaceImage "=@IMAGE(\"u\")" = "=IMAGE(\"u\")" ∧
    ((processCell ⟨true, 200, fun _ => FetchOutcome.fetchFail "boom"⟩ "Sheet1" 1 1
        (some (CellValue.text "=@IMAGE(\"u\")")) ⟨[], [], []⟩ initG).1 =
      some (CellValue.text (replaceImage "=@IMAGE(\"u\")")) ∧
      replaceImage "=@IMAGE(\"u\")" ≠ "=@IMAGE(\"u\")" ∧
      replaceImage "=@IMAGE(\"u\")" ≠ "" ∧
      (processCell ⟨true, 200, fun _ => FetchOutcome.fetchFail "boom"⟩ "Sheet1" 1 1
        (some (CellValue.text "=@IMAGE(\"u\")")) ⟨[], [], []⟩ initG).2.1 = ⟨[], [], []⟩ ∧
      (processCell ⟨true, 200, fun _ => FetchOutcome.fetchFail "boom"⟩ "Sheet1" 1 1
        (some (CellValue.text "=@IMAGE(\"u\")")) ⟨[], [], []⟩ initG).2.2.changes =
      initG.changes ++ [⟨"Sheet1", cellAddr 1 1, "=@IMAGE(\"u\")",
        "Formula replaced (download failed)", String.mk ("u" : String).data,
        "Error: " ++ "boom"⟩]) := by
  refine ⟨⟨rfl, by decide, by decide, rfl⟩, by decide, ?_⟩
  exact C2_fetch_fail_rewrites ⟨true, 200, fun _ => FetchOutcome.fetchFail "boom"⟩
    "Sheet1" 1 1 "=@IMAGE(\"u\")" ("u" : String).data "boom" ⟨[], [], []⟩ initG
    rfl (by decide) (by decide) rfl

/-- Counterexample to claim C2 as stated: for a matched cell whose text has
content around the pattern, the final text after a failed fetch is the
original with the pattern replaced in place — not exactly the normalized
formula `=IMAGE("u")`. -/
theorem C2_counterexample :
    (processCell ⟨true, 200, fun _ => FetchOutcome.fetchFail "boom"⟩ "Sheet1" 1 1
      (some (CellValue.text "x=@IMAGE(\"u\")")) ⟨[], [], []⟩ initG).1 =
      some (CellValue.text "x=IMAGE(\"u\")") ∧
    ("x=IMAGE(\"u\")" : String) ≠ "=IMAGE(\"u\")" := by
  exact ⟨by decide, by decide⟩

/-- Claim C5: for every matched cell in EmbedImages mode where both fetch
and embed succeed, the cell's text value is set to the empty string and
exactly one Image Placement is registered with the sheet, anchored at that
cell's address. -/
theorem C5_embed_success (cfg : Cfg) (sname : String) (r c : Nat)
    (s : String) (u : List Char) (w h : Nat) (ctx : SheetCtx) (g : GState)
    (hmode : cfg.insertImages = true) (hs : s ≠ "")
    (hm : searchIMAGE s.data = some u)
    (henv : cfg.env (String.mk u) = FetchOutcome.embedOk w h) :
    (processCell cfg sname r c (some (CellValue.text s)) ctx g).1 =
      some (CellValue.text "") ∧
    (processCell cfg sname r c (some (CellValue.text s)) ctx g).2.1.placements =
      ctx.placements ++ [⟨cellAddr r c, min w cfg.maxSize, min h cfg.maxSize⟩] ∧
    ((processCell cfg sname r c (some (CellValue.text s)) ctx g).2.1.placements.filter
        (fun p => p.anchor == cellAddr r c)).length =
      (ctx.placements.filter (fun p => p.anchor == cellAddr r c)).length + 1 := by
  rw [processCell_matched hs hm]
  refine ⟨?_, ?_, ?_⟩ <;> simp [processMatched, hmode, henv, List.filter_append]

/-- Witness for C5 on a one-cell grid with a 40 by 40 image. -/
theorem C5_witness :
    ((⟨true, 200, fun _ => FetchOutcome.embedOk 40 40⟩ : Cfg).insertImages = true ∧
      ("=@IMAGE(\"http://a\")" : String) ≠ "" ∧
      searchIMAGE ("=@IMAGE(\"http://a\")" : String).data = some ("http://a" : String).data ∧
      (⟨true, 200, fun _ => FetchOutcome.embedOk 40 40⟩ : Cfg).env
        (String.mk ("http://a" : String).data) = FetchOutcome.embedOk 40 40) ∧
    ((processCell ⟨true, 200, fun _ => FetchOutcome.embedOk 40 40⟩ "Sheet1" 1 1
        (some (CellValue.text "=@IMAGE(\"http://a\")")) ⟨[], [], []⟩ initG).1 =
      some (CellValue.text "") ∧
      (processCell ⟨true, 200, fun _ => FetchOutcome.embedOk 40 40⟩ "Sheet1" 1 1
        (some (CellValue.text "=@IMAGE(\"http://a\")")) ⟨[], [], []⟩ initG).2.1.placements =
      (⟨[], [], []⟩ : SheetCtx).placements ++ [⟨cellAddr 1 1, min 40 200, min 40 200⟩] ∧
      ((processCell ⟨true, 200, fun _ => FetchOutcome.embedOk 40 40⟩ "Sheet1" 1 1
        (some (CellValue.text "=@IMAGE(\"http://a\")")) ⟨[], [], []⟩ initG).2.1.placements.filter
          (fun p => p.anchor == cellAddr 1 1)).length =
      ((⟨[], [], []⟩ : SheetCtx).placements.filter
          (fun p => p.anchor == cellAddr 1 1)).length + 1) := by
  refine ⟨⟨rfl, by decide, by decide, rfl⟩, ?_⟩
  exact C5_embed_success ⟨true, 200, fun _ => FetchOutcome.embedOk 40 40⟩ "Sheet1" 1 1
    "=@IMAGE(\"http://a\")" ("http://a" : String).data 40 40 ⟨[], [], []⟩ initG
    rfl (by decide) (by decide) rfl

/-- Claim C6: for every successfully embedded image, the placement's width
equals min(natural width, maxImageSize) and its height equals min(natural
height, maxImageSize); each axis is clamped independently, with no
aspect-ratio preservation. -/
theorem C6_independent_clamp (cfg : Cfg) (sname : String) (r c : Nat)
    (s : String) (u : List Char) (w h : Nat) (ctx : SheetCtx) (g : GState)
    (hmode : cfg.insertImages = true) (hs : s ≠ "")
    (hm : searchIMAGE s.data = some u)
    (henv : cfg.env (String.mk u) = FetchOutcome.embedOk w h) :
    ∃ p : Placement,
      (processCell cfg sname r c (some (CellValue.text s)) ctx g).2.1.placements =
        ctx.placements ++ [p] ∧
      p.width = min w cfg.maxSize ∧ p.height = min h cfg.maxSize := by
  rw [processCell_matched hs hm]
  exact ⟨⟨cellAddr r c, min w cfg.maxSize, min h cfg.maxSize⟩,
    by simp [processMatched, hmode, henv], rfl, rfl⟩

/-- Witness for C6: natural size 400 by 200 with cap 100 yields a 100 by
100 placement (no aspect-ratio preservation). -/
theorem C6_witness :
    ((⟨true, 100, fun _ => FetchOutcome.embedOk 400 200⟩ : Cfg).insertImages = true ∧
      ("=@IMAGE(\"http://a\")" : String) ≠ "" ∧
      searchIMAGE ("=@IMAGE(\"http://a\")" : String).data = some ("http://a" : String).data ∧
      (⟨true, 100, fun _ => FetchOutcome.embedOk 400 200⟩ : Cfg).env
        (String.mk ("http://a" : String).data) = FetchOutcome.embedOk 400 200) ∧
    (min 400 100 = 100 ∧ min 200 100 = 100) ∧
    (∃ p : Placement,
      (processCell ⟨true, 100, fun _ => FetchOutcome.embedOk 400 200⟩ "Sheet1" 1 1
        (some (CellValue.text "=@IMAGE(\"http://a\")")) ⟨[], [], []⟩ initG).2.1.placements =
        (⟨[], [], []⟩ : SheetCtx).placements ++ [p] ∧
      p.width = min 400 100 ∧ p.height = min 200 100) := by
  refine ⟨⟨rfl, by decide, by decide, rfl⟩, ⟨by decide, by decide⟩, ?_⟩
  exact C6_independent_clamp ⟨true, 100, fun _ => FetchOutcome.embedOk 400 200⟩ "Sheet1" 1 1
    "=@IMAGE(\"http://a\")" ("http://a" : String).data 400 200 ⟨[], [], []⟩ initG
    rfl (by decide) (by decide) rfl

/-- Claim C7: for every cell that receives an embedded image (positive
natural size and cap), the final row height equals the maximum of the
pre-conversion height (default 15) and imageHeight * 0.75, and the final
column width equals the maximum of the pre-conversion width (default 8) and
imageWidth * 0.15; both are at least the image term and at least any
pre-existing dimension, and a pre-existing dimension that already dominates
the image term is left untouched, so both dimensions are monotonically
non-decreasing relative to their pre-conversion values. -/
theorem C7_dims_grow (cfg : Cfg) (sname : String) (r c : Nat)
    (s : String) (u : List Char) (w h : Nat) (ctx : SheetCtx) (g : GState)
    (hmode : cfg.insertImages = true) (hs : s ≠ "")
    (hm : searchIMAGE s.data = some u)
    (henv : cfg.env (String.mk u) = FetchOutcome.embedOk w h)
    (hw : 0 < w) (hh : 0 < h) (hcap : 0 < cfg.maxSize) :
    ∃ newH newW : ℚ,
      getDim (processCell cfg sname r c (some (CellValue.text s)) ctx g).2.1.rowHeights r =
        some newH ∧
      getDim (processCell cfg sname r c (some (CellValue.text s)) ctx g).2.1.colWidths c =
        some newW ∧
      ((min h cfg.maxSize : Nat) : ℚ) * (3 / 4) ≤ newH ∧
      ((min w cfg.maxSize : Nat) : ℚ) * (3 / 20) ≤ newW ∧
      (∀ oldH, getDim ctx.rowHeights r = some oldH → oldH ≤ newH ∧
        (((min h cfg.maxSize : Nat) : ℚ) * (3 / 4) ≤ oldH → newH = oldH)) ∧
      (∀ oldW, getDim ctx.colWidths c = some oldW → oldW ≤ newW ∧
        (((min w cfg.maxSize : Nat) : ℚ) * (3 / 20) ≤ oldW → newW = oldW)) := by
  have himgH : (0 : ℚ) < ((min h cfg.maxSize : Nat) : ℚ) * (3 / 4) := by
    have : 0 < min h cfg.maxSize := lt_min hh hcap
    have hcast : (0 : ℚ) < ((min h cfg.maxSize : Nat) : ℚ) := by exact_mod_cast this
    positivity
  have himgW : (0 : ℚ) < ((min w cfg.maxSize : Nat) : ℚ) * (3 / 20) := by
    have : 0 < min w cfg.maxSize := lt_min hw hcap
    have hcast : (0 : ℚ) < ((min w cfg.maxSize : Nat) : ℚ) := by exact_mod_cast this
    positivity
  rw [processCell_matched hs hm]
  have hctx : (processMatched cfg sname r c s (String.mk u) ctx g).2.1 =
      { rowHeights := setDim ctx.rowHeights r
          (qmax (orDefault (getDim ctx.rowHeights r) 15)
            (((min h cfg.maxSize : Nat) : ℚ) * (3 / 4))),
        colWidths := setDim ctx.colWidths c
          (qmax (orDefault (getDim ctx.colWidths c) 8)
            (((min w cfg.maxSize : Nat) : ℚ) * (3 / 20))),
        placements := ctx.placements ++
          [⟨cellAddr r c, min w cfg.maxSize, min h cfg.maxSize⟩] } := by
    simp [processMatched, hmode, henv]
  rw [hctx]
  refine ⟨_, _, getDim_setDim_same _ _ _, getDim_setDim_same _ _ _,
    le_qmax_right _ _, le_qmax_right _ _, ?_, ?_⟩
  · intro oldH hOld
    rw [hOld]
    constructor
    · by_cases h0 : oldH = 0
      · subst h0
        calc (0 : ℚ) ≤ 15 := by norm_num
          _ ≤ _ := by
            rw [orDefault]
            simp only [if_pos rfl]
            exact le_qmax_left _ _
      · calc oldH = orDefault (some oldH) 15 := by rw [orDefault]; simp [h0]
          _ ≤ _ := le_qmax_left _ _
    · intro hdom
      have h0 : oldH ≠ 0 := by
        intro h0
        rw [h0] at hdom
        exact absurd hdom (not_le.mpr himgH)
      have hbase : orDefault (some oldH) 15 = oldH := by rw [orDefault]; simp [h0]
      rw [hbase, qmax_eq_left hdom]
  · intro oldW hOld
    rw [hOld]
    constructor
    · by_cases h0 : oldW = 0
      · subst h0
        calc (0 : ℚ) ≤ 8 := by norm_num
          _ ≤ _ := by
            rw [orDefault]
            simp only [if_pos rfl]
            exact le_qmax_left _ _
      · calc oldW = orDefault (some oldW) 8 := by rw [orDefault]; simp [h0]
          _ ≤ _ := le_qmax_left _ _
    · intro hdom
      have h0 : oldW ≠ 0 := by
        intro h0
        rw [h0] at hdom
        exact absurd hdom (not_le.mpr himgW)
      have hbase : orDefault (some oldW) 8 = oldW := by rw [orDefault]; simp [h0]
      rw [hbase, qmax_eq_left hdom]

/-- Witness for C7 with a 40 by 40 image, cap 200, and a pre-existing row
height of 50. -/
theorem C7_witness :
    ((⟨true, 200, fun _ => FetchOutcome.embedOk 40 40⟩ : Cfg).insertImages = true ∧
      ("=@IMAGE(\"http://a\")" : String) ≠ "" ∧
      searchIMAGE ("=@IMAGE(\"http://a\")" : String).data = some ("http://a" : String).data ∧
      (⟨true, 200, fun _ => FetchOutcome.embedOk 40 40⟩ : Cfg).env
        (String.mk ("http://a" : String).data) = FetchOutcome.embedOk 40 40 ∧
      0 < 40 ∧ 0 < 40 ∧ 0 < (⟨true, 200, fun _ => FetchOutcome.embedOk 40 40⟩ : Cfg).maxSize) ∧
    (∃ newH newW : ℚ,
      getDim (processCell ⟨true, 200, fun _ => FetchOutcome.embedOk 40 40⟩ "Sheet1" 1 1
        (some (CellValue.text "=@IMAGE(\"http://a\")"))
        ⟨[(1, 50)], [], []⟩ initG).2.1.rowHeights 1 = some newH ∧
      getDim (processCell ⟨true, 200, fun _ => FetchOutcome.embedOk 40 40⟩ "Sheet1" 1 1
        (some (CellValue.text "=@IMAGE(\"http://a\")"))
        ⟨[(1, 50)], [], []⟩ initG).2.1.colWidths 1 = some newW ∧
      ((min 40 200 : Nat) : ℚ) * (3 / 4) ≤ newH ∧
      ((min 40 200 : Nat) : ℚ) * (3 / 20) ≤ newW ∧
      (∀ oldH, getDim (⟨[(1, 50)], [], []⟩ : SheetCtx).rowHeights 1 = some oldH →
        oldH ≤ newH ∧ (((min 40 200 : Nat) : ℚ) * (3 / 4) ≤ oldH → newH = oldH)) ∧
      (∀ oldW, getDim (⟨[(1, 50)], [], []⟩ : SheetCtx).colWidths 1 = some oldW →
        oldW ≤ newW ∧ (((min 40 200 : Nat) : ℚ) * (3 / 20) ≤ oldW → newW = oldW))) := by
  refine ⟨⟨rfl, by decide, by decide, rfl, by decide, by decide, by decide⟩, ?_⟩
  exact C7_dims_grow ⟨true, 200, fun _ => FetchOutcome.embedOk 40 40⟩ "Sheet1" 1 1
    "=@IMAGE(\"http://a\")" ("http://a" : String).data 40 40 ⟨[(1, 50)], [], []⟩ initG
    rfl (by decide) (by decide) rfl (by decide) (by decide) (by decide)

/-- Token stripping never lengthens the input. -/
theorem stripTokenCI_length : ∀ (t cs r : List Char),
    stripTokenCI t cs = some r → r.length ≤ cs.length := by
  intro t
  induction t with
  | nil =>
    intro cs r h
    obtain rfl : cs = r := by simpa [stripTokenCI] using h
    exact Nat.le_refl _
  | cons t0 ts ih =>
    intro cs r h
    cases cs with
    | nil => simp [stripTokenCI] at h
    | cons c cs =>
      by_cases hl : lowEq t0 c
      · rw [stripTokenCI, if_pos hl] at h
        exact Nat.le_succ_of_le (ih cs r h)
      · rw [stripTokenCI_cons_false (Bool.eq_false_iff.mpr hl)] at h
        simp at h

/-- Dropping whitespace never lengthens the input. -/
theorem dropSpaces_length (cs : List Char) : (dropSpaces cs).length ≤ cs.length :=
  List.Sublist.length_le (List.dropWhile_sublist _)

/-- A successful parse consumes at least the matched prefix: the remaining
input is no longer than the input, which justifies instantiating the fuel
of the rewriter with the input length. -/
theorem parseAfterEq_length : ∀ {cs : List Char} {x : List Char × List Char},
    parseAfterEq cs = some x → x.2.length ≤ cs.length := by
  intro cs x h
  unfold parseAfterEq at h
  split at h
  · exact absurd h (by simp)
  · rename_i r1 hstrip
    have l1 : r1.length ≤ cs.length := stripTokenCI_length imageTok cs r1 hstrip
    split at h
    · rename_i r3 hdrop1
      have l3 : r3.length + 1 ≤ r1.length := by
        have hx := dropSpaces_length r1
        rw [hdrop1] at hx
        simpa using hx
      split at h
      · rename_i q r5 hdrop2
        have l5 : r5.length + 1 ≤ r3.length := by
          have hx := dropSpaces_length r3
          rw [hdrop2] at hx
          simpa using hx
        split at h
        · split at h
          · rename_i hd r7 hdropq
            have l7 : r7.length + 1 ≤ r5.length := by
              have hx : (r5.dropWhile notQuote).length ≤ r5.length :=
                List.Sublist.length_le (List.dropWhile_sublist _)
              rw [hdropq] at hx
              simpa using hx
            split at h
            · exact absurd h (by simp)
            · split at h
              · rename_i r9 hdrop3
                have l9 : r9.length + 1 ≤ r7.length := by
                  have hx := dropSpaces_length r7
                  rw [hdrop3] at hx
                  simpa using hx
                obtain rfl : x = (List.takeWhile notQuote r5, r9) :=
                  (Option.some_inj.mp h).symm
                show r9.length ≤ cs.length
                omega
              · exact absurd h (by simp)
          · exact absurd h (by simp)
        · exact absurd h (by simp)
      · exact absurd h (by simp)
    · exact absurd h (by simp)

/-- The rewriter's result does not depend on the fuel, as long as the fuel
dominates the input length: `subAll` computes the total left-to-right
replacement. -/
theorem subAllFuel_fuel_stable : ∀ (f1 f2 : Nat) (cs : List Char),
    cs.length ≤ f1 → cs.length ≤ f2 → subAllFuel f1 cs = subAllFuel f2 cs := by
  intro f1
  induction f1 with
  | zero =>
    intro f2 cs h1 _
    obtain rfl : cs = [] := List.length_eq_zero.mp (Nat.le_zero.mp h1)
    cases f2 <;> rfl
  | succ f1 ih =>
    intro f2 cs h1 h2
    cases cs with
    | nil => cases f2 <;> rfl
    | cons c rest =>
      cases f2 with
      | zero => simp at h2
      | succ f2 =>
        have hr1 : rest.length ≤ f1 := by simpa using Nat.le_of_succ_le_succ h1
        have hr2 : rest.length ≤ f2 := by simpa using Nat.le_of_succ_le_succ h2
        show subAllFuel (f1 + 1) (c :: rest) = subAllFuel (f2 + 1) (c :: rest)
        unfold subAllFuel
        by_cases hc : c = '='
        · rw [if_pos hc, if_pos hc]
          cases hp : parseAfterEq rest with
          | some x =>
            obtain ⟨url, after⟩ := x
            have hlen : after.length ≤ rest.length := parseAfterEq_length hp
            show normalizedChars url ++ subAllFuel f1 after =
              normalizedChars url ++ subAllFuel f2 after
            rw [ih f2 after (Nat.le_trans hlen hr1) (Nat.le_trans hlen hr2)]
          | none =>
            show c :: subAllFuel f1 rest = c :: subAllFuel f2 rest
            rw [ih f2 rest hr1 hr2]
        · rw [if_neg hc, if_neg hc, ih f2 rest hr1 hr2]
